import Mathlib

/-!
Verification of the transposition-table core (tt.cpp) of this repository.

The operations `probe`, `save`, `clear`, `resize` and `hashfull` are shallow
embeddings of the function bodies in the source file.  The table works at
cluster granularity: `probe` and `save` touch exactly one cluster, so they are
embedded as functions on a single cluster (a `List TTEntry`).  The table as a
whole (needed by `hashfull` and `clear`) is a function from cluster index to
cluster together with a cluster count.

The entry layout, the in-cluster signature, `ClusterSize`, `DEPTH_OFFSET` and
the field accessors live in the header tt.h, which is not part of the sources
at hand; those definitions are modelled from the spec (§3, §4.1) and marked as
such.
-/

namespace TT

/-- Modelled from the spec: entry record of tt.h (§3).  Fields keep the widths
of the packed 10-byte layout as range invariants rather than machine types:
`key16`, `move16` are 16-bit unsigned, `value16`, `eval16` are 16-bit signed
(held as `Int`), `genBound8` and `depth8` are 8-bit unsigned. -/
structure TTEntry where
  key16     : Nat
  move16    : Nat
  value16   : Int
  eval16    : Int
  genBound8 : Nat
  depth8    : Nat
deriving DecidableEq, Repr

/-- 8-bit range invariants of the packed fields (the machine types of tt.h). -/
def TTEntry.WF (e : TTEntry) : Prop :=
  e.key16 < 65536 ∧ e.move16 < 65536 ∧
  -32768 ≤ e.value16 ∧ e.value16 < 32768 ∧
  -32768 ≤ e.eval16 ∧ e.eval16 < 32768 ∧
  e.genBound8 < 256 ∧ e.depth8 < 256

/-- The all-zero entry: the state of every slot right after `clear`. -/
def zeroEntry : TTEntry := ⟨0, 0, 0, 0, 0, 0⟩

instance : Inhabited TTEntry := ⟨zeroEntry⟩

/-- Modelled from the spec: `ClusterSize` of tt.h; a cluster groups 3 entries
(§3, default 3). -/
def ClusterSize : Nat := 3

/-- Modelled from the spec: `DEPTH_OFFSET` of tt.h, "the smallest depth the
engine ever stores (a small negative constant)" (§4.1).  Its concrete value is
irrelevant to the claims; it is fixed to -7 here. -/
def DEPTH_OFFSET : Int := -7

/-- Bound kinds (types.h, per spec §3): NONE marks a slot with no usable
bound. -/
def BOUND_NONE : Nat := 0

def BOUND_UPPER : Nat := 1

def BOUND_LOWER : Nat := 2

def BOUND_EXACT : Nat := 3

/-- Two's-complement conversion to a signed 16-bit value: the `int16_t(...)`
casts of the source. -/
def int16ofInt (v : Int) : Int := (v + 32768) % 65536 - 32768

/-- Truncation to unsigned 8 bits: the `uint8_t(...)` casts of the source. -/
def uint8ofInt (x : Int) : Nat := (x % 256).toNat

/-- The in-cluster signature: `key >> 48` truncated to 16 bits
(`const uint16_t key16 = key >> 48`, tt.cpp). -/
def sigOf (key : Nat) : Nat := (key >>> 48) % 65536

/-- The refreshed generation byte written by a probe hit:
`uint8_t(generation8 | (genBound8 & 0x7))` (tt.cpp). -/
def refreshGB (gen8 gb : Nat) : Nat := (gen8 ||| (gb &&& 7)) % 256

/-- The generation/pv/bound byte written by `save`:
`uint8_t(generation8 | uint8_t(pv) << 2 | b)` (tt.cpp). -/
def packGenBound (gen8 : Nat) (pv : Bool) (b : Nat) : Nat :=
  (gen8 ||| (cond pv 1 0) <<< 2 ||| b) % 256

/-- Modelled from the spec: the accessors of tt.h (§4.1): stored value. -/
def TTEntry.value (e : TTEntry) : Int := e.value16

/-- Modelled from the spec: stored static evaluation. -/
def TTEntry.eval (e : TTEntry) : Int := e.eval16

/-- Modelled from the spec: stored move. -/
def TTEntry.move (e : TTEntry) : Nat := e.move16

/-- Modelled from the spec: bound kind, the low two bits of `genBound8`. -/
def TTEntry.bound (e : TTEntry) : Nat := e.genBound8 &&& 3

/-- Modelled from the spec: pv flag, bit 2 of `genBound8`. -/
def TTEntry.is_pv (e : TTEntry) : Bool := e.genBound8 &&& 4 ≠ 0

/-- Modelled from the spec: `stored_to_depth`, inverse of `d - DEPTH_OFFSET`
(§4.1). -/
def TTEntry.depth (e : TTEntry) : Int := (e.depth8 : Int) + DEPTH_OFFSET

/-- Result of `TranspositionTable::probe`: the cluster after the call, the
`found` flag, and the returned entry pointer (`none` models `nullptr`). -/
structure ProbeResult where
  cluster : List TTEntry
  found   : Bool
  hit     : Option TTEntry
deriving DecidableEq, Repr

/-- The scan loop of `probe` (tt.cpp lines 95-103): walk the cluster in order;
on the first entry whose `key16` matches, rewrite its `genBound8` with the
refreshed generation and return the updated cluster and that entry. -/
def probeAux (gen8 sig : Nat) : List TTEntry → Option (List TTEntry × TTEntry)
  | [] => none
  | e :: rest =>
    if e.key16 = sig then
      let e2 : TTEntry := { e with genBound8 := refreshGB gen8 e.genBound8 }
      some (e2 :: rest, e2)
    else
      match probeAux gen8 sig rest with
      | some (rest2, hit) => some (e :: rest2, hit)
      | none => none

/-- `TranspositionTable::probe` (tt.cpp lines 90-106) on the target cluster:
returns `found = true` with the matching entry, or `found = false` and a null
pointer (`return found = false, nullptr`). -/
def probe (gen8 key : Nat) (c : List TTEntry) : ProbeResult :=
  match probeAux gen8 (sigOf key) c with
  | some (c2, hit) => ⟨c2, true, some hit⟩
  | none => ⟨c, false, none⟩

/-- First phase of `save` (tt.cpp lines 124-131): index of the first entry with
a matching `key16`. -/
def findMatchIdx (sig : Nat) : List TTEntry → Option Nat
  | [] => none
  | e :: rest =>
    if e.key16 = sig then some 0 else (findMatchIdx sig rest).map (fun j => j + 1)

/-- Second phase of `save` (tt.cpp lines 133-143): index of the first entry
with `key16 == 0` (`if (!tte[i].key16)`). -/
def findEmptyIdx : List TTEntry → Option Nat
  | [] => none
  | e :: rest =>
    if e.key16 = 0 then some 0 else (findEmptyIdx rest).map (fun j => j + 1)

/-- Replacement score of an entry (tt.cpp lines 154-155):
`depth8 - ((263 + generation8 - genBound8) & 0xF8)`, computed in `int`. -/
def rscore (gen8 : Nat) (e : TTEntry) : Int :=
  (e.depth8 : Int) - (((263 + (gen8 : Int) - (e.genBound8 : Int)).toNat &&& 248 : Nat) : Int)

/-- Third phase of `save` (tt.cpp lines 148-156): the walk keeping the current
leader `best` (index and entry) unless the candidate's replacement score is
strictly smaller (`if rscore(replace) > rscore(tte[i]) replace = &tte[i]`). -/
def lruAux (gen8 : Nat) : Nat × TTEntry → Nat → List TTEntry → Nat × TTEntry
  | best, _, [] => best
  | best, i, e :: rest =>
    if rscore gen8 best.2 > rscore gen8 e then lruAux gen8 (i, e) (i + 1) rest
    else lruAux gen8 best (i + 1) rest

/-- The least-valuable-entry index: seeded with the cluster's first entry
(`replace = tte`), then the walk of `lruAux` over entries 1.. . -/
def lruVictim (gen8 : Nat) : List TTEntry → Nat
  | [] => 0
  | e :: rest => (lruAux gen8 (0, e) 1 rest).1

/-- The three-phase victim selection of `save` (tt.cpp lines 124-157). -/
def victimIdx (gen8 sig : Nat) (c : List TTEntry) : Nat :=
  match findMatchIdx sig c with
  | some i => i
  | none =>
    match findEmptyIdx c with
    | some i => i
    | none => lruVictim gen8 c

/-- The write phase of `save` (tt.cpp lines 159-167): `move16` is written only
when the incoming move is nonzero or the victim's `key16` differs from the new
signature; all other fields are overwritten unconditionally. -/
def writeEntry (gen8 sig : Nat) (v : Int) (pv : Bool) (b : Nat) (d : Int)
    (m : Nat) (ev : Int) (old : TTEntry) : TTEntry :=
  { key16     := sig
    move16    := if m ≠ 0 ∨ old.key16 ≠ sig then m % 65536 else old.move16
    value16   := int16ofInt v
    eval16    := int16ofInt ev
    genBound8 := packGenBound gen8 pv b
    depth8    := uint8ofInt (d - DEPTH_OFFSET) }

/-- `TranspositionTable::save` (tt.cpp lines 117-168) on the target cluster:
select the victim in three phases, then write through it. -/
def save (gen8 k : Nat) (v : Int) (pv : Bool) (b : Nat) (d : Int) (m : Nat)
    (ev : Int) (c : List TTEntry) : List TTEntry :=
  let sig := sigOf k
  let i := victimIdx gen8 sig c
  match c.get? i with
  | some old => c.set i (writeEntry gen8 sig v pv b d m ev old)
  | none => c

/-- Occupancy test of `hashfull` (tt.cpp lines 180-181):
`(genBound8 & 0xF8) == generation8 && (genBound8 & 0x3) != BOUND_NONE`. -/
def occupied (gen8 : Nat) (e : TTEntry) : Bool :=
  (e.genBound8 &&& 248 == gen8) && (e.genBound8 &&& 3 != BOUND_NONE)

/-- The counting loops of `hashfull` (tt.cpp lines 177-181): a fold over the
first 1000 clusters, each contributing its occupied entries. -/
def hashfullCnt (gen8 : Nat) (tbl : Nat → List TTEntry) : Nat :=
  (List.range 1000).foldl
    (fun cnt i =>
      (tbl i).foldl (fun cnt e => cnt + (if occupied gen8 e then 1 else 0)) cnt)
    0

/-- `TranspositionTable::hashfull` (tt.cpp lines 175-184):
`return cnt / ClusterSize`. -/
def hashfull (gen8 : Nat) (tbl : Nat → List TTEntry) : Nat :=
  hashfullCnt gen8 tbl / ClusterSize

/-- The per-thread stride of `clear` (tt.cpp line 73):
`stride = clusterCount / Options["Threads"]`. -/
def clearStride (N T : Nat) : Nat := N / T

/-- The start cluster of thread `idx` in `clear` (tt.cpp line 74):
`start = stride * idx`. -/
def clearStart (N T idx : Nat) : Nat := clearStride N T * idx

/-- The range length of thread `idx` in `clear` (tt.cpp lines 75-76):
`len = idx != Threads - 1 ? stride : clusterCount - start`. -/
def clearLen (N T idx : Nat) : Nat :=
  if idx ≠ T - 1 then clearStride N T else N - clearStart N T idx

/-- Whether cluster `i` lies in thread `idx`'s zeroed range. -/
def inClearRange (N T idx i : Nat) : Bool :=
  decide (clearStart N T idx ≤ i) && decide (i < clearStart N T idx + clearLen N T idx)

/-- The all-zero cluster: the bytes a thread's `memset` leaves behind. -/
def zeroCluster : List TTEntry := List.replicate ClusterSize zeroEntry

/-- `TranspositionTable::clear` (tt.cpp lines 60-84): the combined effect of
the `T` zeroing threads on a table of `N` clusters: every cluster inside some
thread's range becomes all zero. -/
def clearTable (N T : Nat) (tbl : Nat → List TTEntry) : Nat → List TTEntry :=
  fun i => if (List.range T).any (fun idx => inClearRange N T idx i) then zeroCluster else tbl i

/-- Outcome of `resize`: a table of `clusterCount` clusters, or a fatal error
carrying the standard-error diagnostic and the process exit code. -/
inductive ResizeOutcome where
  | ok (clusterCount : Nat)
  | fatal (diagnostic : String) (exitCode : Nat)
deriving DecidableEq, Repr

/-- Modelled from the spec: `sizeof(Cluster)` of tt.h, 3 packed 10-byte
entries plus 2 bytes of padding (§3: "typically 32 bytes"). -/
def sizeofCluster : Nat := 32

/-- `TranspositionTable::resize` (tt.cpp lines 38-54).  The allocator
`aligned_ttmem_alloc` (misc.cpp, not among the sources) is modelled from the
spec as an environment-supplied success flag; on failure the source prints
`"Failed to allocate <mb>MB for transposition table."` to `std::cerr` and
calls `exit(EXIT_FAILURE)` (`EXIT_FAILURE` is nonzero per the C standard,
modelled as 1). -/
def resize (mbSize : Nat) (allocSucceeds : Bool) : ResizeOutcome :=
  let clusterCount := mbSize * 1024 * 1024 / sizeofCluster
  if allocSucceeds then
    .ok clusterCount
  else
    .fatal ("Failed to allocate " ++ toString mbSize ++ "MB for transposition table.") 1

/-! ### Helper lemmas about the cluster scans -/

theorem findMatchIdx_some_spec (sig : Nat) (c : List TTEntry) (i : Nat)
    (h : findMatchIdx sig c = some i) :
    i < c.length ∧ (c.getD i zeroEntry).key16 = sig ∧
      ∀ j, j < i → (c.getD j zeroEntry).key16 ≠ sig := by
  induction c generalizing i with
  | nil => simp [findMatchIdx] at h
  | cons e rest ih =>
    rw [findMatchIdx] at h
    by_cases he : e.key16 = sig
    · rw [if_pos he] at h
      cases h
      exact ⟨by simp, by simpa using he, by omega⟩
    · rw [if_neg he, Option.map_eq_some'] at h
      obtain ⟨i', hi', rfl⟩ := h
      obtain ⟨h1, h2, h3⟩ := ih i' hi'
      refine ⟨by simpa using Nat.succ_lt_succ h1, by simpa using h2, ?_⟩
      intro j hj
      cases j with
      | zero => simpa using he
      | succ j' => simpa using h3 j' (by omega)

theorem findMatchIdx_none_spec (sig : Nat) (c : List TTEntry)
    (h : findMatchIdx sig c = none) :
    ∀ j, j < c.length → (c.getD j zeroEntry).key16 ≠ sig := by
  induction c with
  | nil => intro j hj; simp at hj
  | cons e rest ih =>
    rw [findMatchIdx] at h
    by_cases he : e.key16 = sig
    · rw [if_pos he] at h; cases h
    · rw [if_neg he, Option.map_eq_none'] at h
      intro j hj
      cases j with
      | zero => simpa using he
      | succ j' => simpa using ih h j' (by simpa using Nat.lt_of_succ_lt_succ hj)

theorem findEmptyIdx_eq (c : List TTEntry) : findEmptyIdx c = findMatchIdx 0 c := by
  induction c with
  | nil => rfl
  | cons e rest ih => rw [findEmptyIdx, findMatchIdx, ih]

theorem lruAux_spec (gen8 : Nat) (rest : List TTEntry) :
    ∀ (best : Nat × TTEntry) (i : Nat),
      (lruAux gen8 best i rest = best ∧
        ∀ jj, jj < rest.length →
          rscore gen8 best.2 ≤ rscore gen8 (rest.getD jj zeroEntry))
      ∨ (∃ jj, jj < rest.length ∧
          lruAux gen8 best i rest = (i + jj, rest.getD jj zeroEntry) ∧
          rscore gen8 (rest.getD jj zeroEntry) < rscore gen8 best.2 ∧
          (∀ kk, kk < jj →
            rscore gen8 (rest.getD jj zeroEntry) < rscore gen8 (rest.getD kk zeroEntry)) ∧
          (∀ kk, kk < rest.length →
            rscore gen8 (rest.getD jj zeroEntry) ≤ rscore gen8 (rest.getD kk zeroEntry))) := by
  induction rest with
  | nil =>
    intro best i
    left
    exact ⟨rfl, by intro jj hjj; simp at hjj⟩
  | cons e rest ih =>
    intro best i
    rw [lruAux]
    by_cases hlt : rscore gen8 best.2 > rscore gen8 e
    · rw [if_pos hlt]
      rcases ih (i, e) (i + 1) with ⟨heq, hall⟩ | ⟨jj, hjj, heq, hstrict, hkks, hkka⟩
      · right
        refine ⟨0, by simp, by simpa using heq, by simpa using hlt, ?_, ?_⟩
        · intro kk hkk; omega
        · intro kk hkk
          cases kk with
          | zero => simp
          | succ kk' => simpa using hall kk' (by simpa using Nat.lt_of_succ_lt_succ hkk)
      · right
        refine ⟨jj + 1, by simpa using Nat.succ_lt_succ hjj, ?_, ?_, ?_, ?_⟩
        · rw [heq]; simp; omega
        · simp only [List.getD_cons_succ]
          exact lt_trans hstrict hlt
        · intro kk hkk
          cases kk with
          | zero => simpa using hstrict
          | succ kk' => simpa using hkks kk' (by omega)
        · intro kk hkk
          cases kk with
          | zero => simpa using le_of_lt hstrict
          | succ kk' => simpa using hkka kk' (by simpa using Nat.lt_of_succ_lt_succ hkk)
    · rw [if_neg hlt]
      have hle : rscore gen8 best.2 ≤ rscore gen8 e := le_of_not_lt hlt
      rcases ih best (i + 1) with ⟨heq, hall⟩ | ⟨jj, hjj, heq, hstrict, hkks, hkka⟩
      · left
        refine ⟨heq, ?_⟩
        intro jj hjj
        cases jj with
        | zero => simpa using hle
        | succ jj' => simpa using hall jj' (by simpa using Nat.lt_of_succ_lt_succ hjj)
      · right
        refine ⟨jj + 1, by simpa using Nat.succ_lt_succ hjj, ?_, ?_, ?_, ?_⟩
        · rw [heq]; simp; omega
        · simpa using hstrict
        · intro kk hkk
          cases kk with
          | zero => simp only [List.getD_cons_succ, List.getD_cons_zero]
                    exact lt_of_lt_of_le hstrict hle
          | succ kk' => simpa using hkks kk' (by omega)
        · intro kk hkk
          cases kk with
          | zero => simp only [List.getD_cons_succ, List.getD_cons_zero]
                    exact le_of_lt (lt_of_lt_of_le hstrict hle)
          | succ kk' => simpa using hkka kk' (by simpa using Nat.lt_of_succ_lt_succ hkk)

theorem lruVictim_spec (gen8 : Nat) (c : List TTEntry) (hc : c ≠ []) :
    lruVictim gen8 c < c.length ∧
    (∀ idx, idx < c.length →
      rscore gen8 (c.getD (lruVictim gen8 c) zeroEntry) ≤ rscore gen8 (c.getD idx zeroEntry)) ∧
    (∀ idx, idx < lruVictim gen8 c →
      rscore gen8 (c.getD idx zeroEntry) > rscore gen8 (c.getD (lruVictim gen8 c) zeroEntry)) := by
  match c with
  | [] => exact absurd rfl hc
  | e :: rest =>
    rcases lruAux_spec gen8 rest (0, e) 1 with ⟨heq, hall⟩ | ⟨jj, hjj, heq, hstrict, hkks, hkka⟩
    · have hv : lruVictim gen8 (e :: rest) = 0 := by rw [lruVictim, heq]
      rw [hv]
      refine ⟨by simp, ?_, by omega⟩
      intro idx hidx
      cases idx with
      | zero => simp
      | succ idx' => simpa using hall idx' (by simpa using Nat.lt_of_succ_lt_succ hidx)
    · have hv : lruVictim gen8 (e :: rest) = jj + 1 := by rw [lruVictim, heq]; omega
      rw [hv]
      have hgd : (e :: rest).getD (jj + 1) zeroEntry = rest.getD jj zeroEntry := by simp
      rw [hgd]
      refine ⟨by simpa using Nat.succ_lt_succ hjj, ?_, ?_⟩
      · intro idx hidx
        cases idx with
        | zero => simpa using le_of_lt hstrict
        | succ idx' => simpa using hkka idx' (by simpa using Nat.lt_of_succ_lt_succ hidx)
      · intro idx hidx
        cases idx with
        | zero => simpa using hstrict
        | succ idx' => simpa using hkks idx' (by omega)

theorem victimIdx_lt (gen8 sig : Nat) (c : List TTEntry) (hc : c ≠ []) :
    victimIdx gen8 sig c < c.length := by
  unfold victimIdx
  cases hm : findMatchIdx sig c with
  | some i => exact (findMatchIdx_some_spec sig c i hm).1
  | none =>
    cases hemp : findEmptyIdx c with
    | some i =>
      rw [findEmptyIdx_eq] at hemp
      exact (findMatchIdx_some_spec 0 c i hemp).1
    | none => exact (lruVictim_spec gen8 c hc).1

theorem victim_prefix_no_match (gen8 sig : Nat) (c : List TTEntry) (j : Nat)
    (hj : j < victimIdx gen8 sig c) (hjl : j < c.length) :
    (c.getD j zeroEntry).key16 ≠ sig := by
  unfold victimIdx at hj
  cases hm : findMatchIdx sig c with
  | some i =>
    rw [hm] at hj
    exact (findMatchIdx_some_spec sig c i hm).2.2 j hj
  | none => exact findMatchIdx_none_spec sig c hm j hjl

/-! ### Helper lemmas about the probe scan -/

theorem probeAux_none (gen8 sig : Nat) (c : List TTEntry)
    (h : ∀ j, j < c.length → (c.getD j zeroEntry).key16 ≠ sig) :
    probeAux gen8 sig c = none := by
  induction c with
  | nil => rfl
  | cons e rest ih =>
    have he : e.key16 ≠ sig := by simpa using h 0 (by simp)
    rw [probeAux, if_neg he, ih]
    intro j hj
    simpa using h (j + 1) (by simpa using Nat.succ_lt_succ hj)

theorem probeAux_hit (gen8 sig : Nat) (c : List TTEntry) (i : Nat)
    (hi : i < c.length) (hmatch : (c.getD i zeroEntry).key16 = sig)
    (hfirst : ∀ j, j < i → (c.getD j zeroEntry).key16 ≠ sig) :
    probeAux gen8 sig c =
      some (c.set i { c.getD i zeroEntry with
                        genBound8 := refreshGB gen8 (c.getD i zeroEntry).genBound8 },
            { c.getD i zeroEntry with
                genBound8 := refreshGB gen8 (c.getD i zeroEntry).genBound8 }) := by
  induction c generalizing i with
  | nil => simp at hi
  | cons e rest ih =>
    cases i with
    | zero =>
      simp only [List.getD_cons_zero] at hmatch ⊢
      rw [probeAux, if_pos hmatch]
      simp
    | succ i' =>
      have he : e.key16 ≠ sig := by simpa using hfirst 0 (Nat.succ_pos i')
      simp only [List.getD_cons_succ] at hmatch ⊢
      rw [probeAux, if_neg he,
          ih i' (by simpa using Nat.lt_of_succ_lt_succ hi) hmatch
            (fun j hj => by simpa using hfirst (j + 1) (by omega))]
      simp

theorem save_eq_set (gen8 k : Nat) (v : Int) (pv : Bool) (b : Nat) (d : Int)
    (m : Nat) (ev : Int) (c : List TTEntry) (hc : c ≠ []) :
    save gen8 k v pv b d m ev c =
      c.set (victimIdx gen8 (sigOf k) c)
        (writeEntry gen8 (sigOf k) v pv b d m ev
          (c.getD (victimIdx gen8 (sigOf k) c) zeroEntry)) := by
  unfold save
  have hlt := victimIdx_lt gen8 (sigOf k) c hc
  simp only [List.get?_eq_getElem?, List.getElem?_eq_getElem hlt,
    List.getD_eq_getElem?_getD]
  rfl

/-! ### Bit-level lemmas about the packed generation byte.

`generation8` is advanced in steps of 8 starting from 0 (spec §4.3.5), so it
always satisfies `gen8 < 256` and `gen8 % 8 = 0`; the lemmas below take those
facts as hypotheses and are settled by enumeration of the byte domain. -/

set_option maxRecDepth 8192 in
theorem lor_low_bits : ∀ g, g < 256 → g % 8 = 0 → ∀ x, x < 8 →
    ((g ||| x) % 256) &&& 7 = x ∧ ((g ||| x) % 256) &&& 248 = g ∧
    (g ||| x) % 256 < 256 := by decide

theorem refreshGB_bits (g : Nat) (hg : g < 256) (hg8 : g % 8 = 0) (gb : Nat) :
    refreshGB g gb &&& 7 = gb &&& 7 ∧ refreshGB g gb &&& 248 = g ∧
    refreshGB g gb < 256 := by
  have h7 : gb &&& 7 < 8 := Nat.lt_succ_of_le (Nat.and_le_right)
  have := lor_low_bits g hg hg8 (gb &&& 7) h7
  exact ⟨this.1, this.2.1, this.2.2⟩

set_option maxRecDepth 8192 in
theorem packGenBound_true_bits : ∀ g, g < 256 → g % 8 = 0 → ∀ b, b < 4 →
    refreshGB g (packGenBound g true b) &&& 3 = b ∧
    refreshGB g (packGenBound g true b) &&& 4 = 4 ∧
    packGenBound g true b &&& 3 = b ∧ packGenBound g true b &&& 4 = 4 := by
  decide

set_option maxRecDepth 8192 in
theorem packGenBound_false_bits : ∀ g, g < 256 → g % 8 = 0 → ∀ b, b < 4 →
    refreshGB g (packGenBound g false b) &&& 3 = b ∧
    refreshGB g (packGenBound g false b) &&& 4 = 0 ∧
    packGenBound g false b &&& 3 = b ∧ packGenBound g false b &&& 4 = 0 := by
  decide

set_option maxRecDepth 8192 in
theorem packGenBound_gen_bits : ∀ g, g < 256 → g % 8 = 0 → ∀ b, b < 4 →
    packGenBound g true b &&& 248 = g ∧ packGenBound g false b &&& 248 = g := by
  decide

theorem int16ofInt_eq (v : Int) (h1 : -32768 ≤ v) (h2 : v < 32768) :
    int16ofInt v = v := by
  unfold int16ofInt
  rw [Int.emod_eq_of_lt (by omega) (by omega)]
  omega

theorem uint8ofInt_eq (x : Int) (h1 : 0 ≤ x) (h2 : x < 256) :
    (uint8ofInt x : Int) = x := by
  unfold uint8ofInt
  rw [Int.emod_eq_of_lt h1 h2]
  exact Int.toNat_of_nonneg h1

theorem getD_set_self (c : List TTEntry) (i : Nat) (x : TTEntry) (h : i < c.length) :
    (c.set i x).getD i zeroEntry = x := by
  induction c generalizing i with
  | nil => simp at h
  | cons e rest ih =>
    cases i with
    | zero => simp
    | succ i' => simpa using ih i' (by simpa using Nat.lt_of_succ_lt_succ h)

theorem getD_set_ne (c : List TTEntry) (i j : Nat) (x : TTEntry) (hne : j ≠ i) :
    (c.set i x).getD j zeroEntry = c.getD j zeroEntry := by
  induction c generalizing i j with
  | nil => simp
  | cons e rest ih =>
    cases i with
    | zero =>
      cases j with
      | zero => exact absurd rfl hne
      | succ j' => simp
    | succ i' =>
      cases j with
      | zero => simp
      | succ j' => simpa using ih i' j' (fun h => hne (by rw [h]))

theorem and3_of_and7 (a b : Nat) (h : a &&& 7 = b &&& 7) : a &&& 3 = b &&& 3 := by
  have h73 : (7 : Nat) &&& 3 = 3 := rfl
  rw [← h73, ← Nat.and_assoc, ← Nat.and_assoc, h]

theorem and4_of_and7 (a b : Nat) (h : a &&& 7 = b &&& 7) : a &&& 4 = b &&& 4 := by
  have h74 : (7 : Nat) &&& 4 = 4 := rfl
  rw [← h74, ← Nat.and_assoc, ← Nat.and_assoc, h]

theorem findMatchIdx_eq_some_of_first (sig : Nat) (c : List TTEntry) (i : Nat)
    (hi : i < c.length) (hm : (c.getD i zeroEntry).key16 = sig)
    (hf : ∀ j, j < i → (c.getD j zeroEntry).key16 ≠ sig) :
    findMatchIdx sig c = some i := by
  cases h : findMatchIdx sig c with
  | none => exact absurd hm (findMatchIdx_none_spec sig c h i hi)
  | some i' =>
    obtain ⟨h1, h2, h3⟩ := findMatchIdx_some_spec sig c i' h
    rcases Nat.lt_trichotomy i i' with hlt | heq | hgt
    · exact absurd hm (h3 i hlt)
    · rw [heq]
    · exact absurd h2 (hf i' hgt)

theorem findMatchIdx_eq_none_of (sig : Nat) (c : List TTEntry)
    (h : ∀ j, j < c.length → (c.getD j zeroEntry).key16 ≠ sig) :
    findMatchIdx sig c = none := by
  cases hm : findMatchIdx sig c with
  | none => rfl
  | some i =>
    obtain ⟨h1, h2, _⟩ := findMatchIdx_some_spec sig c i hm
    exact absurd h2 (h i h1)

/-! ### The claims -/

/-- C9: in every execution of `save` the victim pointer is assigned before it
is dereferenced: the three-phase selection always yields an index inside the
target cluster — when both the matching-key scan and the empty-slot scan fail,
the least-valuable scan (seeded with the cluster's first entry) decides — so
`save` reads a valid entry and writes back to that same slot, never touching
an uninitialized pointer. -/
theorem save_victim_always_assigned (gen8 k : Nat) (v : Int) (pv : Bool)
    (b : Nat) (d : Int) (m : Nat) (ev : Int) (c : List TTEntry) (hc : c ≠ []) :
    victimIdx gen8 (sigOf k) c < c.length ∧
    (findMatchIdx (sigOf k) c = none → findEmptyIdx c = none →
      victimIdx gen8 (sigOf k) c = lruVictim gen8 c) ∧
    c.get? (victimIdx gen8 (sigOf k) c) =
      some (c.getD (victimIdx gen8 (sigOf k) c) zeroEntry) ∧
    save gen8 k v pv b d m ev c =
      c.set (victimIdx gen8 (sigOf k) c)
        (writeEntry gen8 (sigOf k) v pv b d m ev
          (c.getD (victimIdx gen8 (sigOf k) c) zeroEntry)) := by
  have hlt := victimIdx_lt gen8 (sigOf k) c hc
  refine ⟨hlt, ?_, ?_, save_eq_set gen8 k v pv b d m ev c hc⟩
  · intro hm hemp
    unfold victimIdx
    rw [hm, hemp]
  · simp only [List.get?_eq_getElem?, List.getElem?_eq_getElem hlt,
      List.getD_eq_getElem?_getD, Option.getD_some]

/-- C9 witness: on a concrete junk-free cluster the victim index is in range
and `save` rewrites exactly that slot. -/
theorem save_victim_always_assigned_witness :
    ([zeroEntry, zeroEntry, zeroEntry] : List TTEntry) ≠ [] ∧
    (victimIdx 8 (sigOf 0xDEADBEEFCAFEBABE) [zeroEntry, zeroEntry, zeroEntry] < 3 ∧
      (findMatchIdx (sigOf 0xDEADBEEFCAFEBABE) [zeroEntry, zeroEntry, zeroEntry] = none →
        findEmptyIdx [zeroEntry, zeroEntry, zeroEntry] = none →
        victimIdx 8 (sigOf 0xDEADBEEFCAFEBABE) [zeroEntry, zeroEntry, zeroEntry] =
          lruVictim 8 [zeroEntry, zeroEntry, zeroEntry]) ∧
      ([zeroEntry, zeroEntry, zeroEntry] : List TTEntry).get?
          (victimIdx 8 (sigOf 0xDEADBEEFCAFEBABE) [zeroEntry, zeroEntry, zeroEntry]) =
        some (([zeroEntry, zeroEntry, zeroEntry] : List TTEntry).getD
          (victimIdx 8 (sigOf 0xDEADBEEFCAFEBABE) [zeroEntry, zeroEntry, zeroEntry]) zeroEntry) ∧
      save 8 0xDEADBEEFCAFEBABE 42 true 3 10 0x1234 (-5) [zeroEntry, zeroEntry, zeroEntry] =
        ([zeroEntry, zeroEntry, zeroEntry] : List TTEntry).set
          (victimIdx 8 (sigOf 0xDEADBEEFCAFEBABE) [zeroEntry, zeroEntry, zeroEntry])
          (writeEntry 8 (sigOf 0xDEADBEEFCAFEBABE) 42 true 3 10 0x1234 (-5)
            (([zeroEntry, zeroEntry, zeroEntry] : List TTEntry).getD
              (victimIdx 8 (sigOf 0xDEADBEEFCAFEBABE) [zeroEntry, zeroEntry, zeroEntry])
              zeroEntry))) :=
  ⟨by decide,
    save_victim_always_assigned 8 0xDEADBEEFCAFEBABE 42 true 3 10 0x1234 (-5)
      [zeroEntry, zeroEntry, zeroEntry] (by decide)⟩

/-- C1 counterexample: on a cluster holding no entry with the key's signature,
`probe` returns `found = false` together with a NULL entry pointer — not a
reference to the first entry of the cluster as the claim states
(`return found = false, nullptr`, tt.cpp line 105). -/
theorem probe_miss_counterexample :
    (probe 8 0 [(⟨1, 0, 0, 0, 0, 0⟩ : TTEntry), ⟨1, 0, 0, 0, 0, 0⟩, ⟨1, 0, 0, 0, 0, 0⟩]).found
        = false ∧
    (probe 8 0 [(⟨1, 0, 0, 0, 0, 0⟩ : TTEntry), ⟨1, 0, 0, 0, 0, 0⟩, ⟨1, 0, 0, 0, 0, 0⟩]).hit
        = none := by
  decide

/-- C1 amended: for every key whose target cluster contains no entry with
`key16` equal to the key's high 16 bits, `probe` returns `found = false`
together with a null entry reference (`nullptr`), leaving the cluster
unchanged; `save` performs its own victim search. -/
theorem probe_miss_returns_null (gen8 key : Nat) (c : List TTEntry)
    (h : ∀ j, j < c.length → (c.getD j zeroEntry).key16 ≠ sigOf key) :
    probe gen8 key c = ⟨c, false, none⟩ := by
  unfold probe
  rw [probeAux_none gen8 (sigOf key) c h]

/-- C1 witness: a concrete missing key. -/
theorem probe_miss_returns_null_witness :
    (∀ j, j < ([(⟨1, 0, 0, 0, 0, 0⟩ : TTEntry), ⟨1, 0, 0, 0, 0, 0⟩,
        ⟨1, 0, 0, 0, 0, 0⟩] : List TTEntry).length →
      (([(⟨1, 0, 0, 0, 0, 0⟩ : TTEntry), ⟨1, 0, 0, 0, 0, 0⟩,
        ⟨1, 0, 0, 0, 0, 0⟩] : List TTEntry).getD j zeroEntry).key16 ≠ sigOf 0) ∧
    probe 8 0 [(⟨1, 0, 0, 0, 0, 0⟩ : TTEntry), ⟨1, 0, 0, 0, 0, 0⟩, ⟨1, 0, 0, 0, 0, 0⟩] =
      ⟨[(⟨1, 0, 0, 0, 0, 0⟩ : TTEntry), ⟨1, 0, 0, 0, 0, 0⟩, ⟨1, 0, 0, 0, 0, 0⟩], false, none⟩ :=
  ⟨by decide,
    probe_miss_returns_null 8 0
      [⟨1, 0, 0, 0, 0, 0⟩, ⟨1, 0, 0, 0, 0, 0⟩, ⟨1, 0, 0, 0, 0, 0⟩] (by decide)⟩

/-- C3: `save` selects its victim in three phases over the target cluster: the
first entry whose `key16` matches the signature if one exists; otherwise the
first entry in scan order with `key16 == 0`; otherwise the entry minimizing
`rscore(e) = depth8 - ((263 + generation - genBound8) & 0xF8)`, where on a tie
the entry scanned earlier is kept (the leader is replaced only when strictly
beaten), i.e. the victim is the earliest index attaining the minimum. -/
theorem save_victim_selection_three_phases (gen8 sig : Nat) (c : List TTEntry)
    (hc : c ≠ []) :
    (∀ i, i < c.length → (c.getD i zeroEntry).key16 = sig →
      (∀ j, j < i → (c.getD j zeroEntry).key16 ≠ sig) →
      victimIdx gen8 sig c = i) ∧
    ((∀ j, j < c.length → (c.getD j zeroEntry).key16 ≠ sig) →
      ∀ i, i < c.length → (c.getD i zeroEntry).key16 = 0 →
        (∀ j, j < i → (c.getD j zeroEntry).key16 ≠ 0) →
        victimIdx gen8 sig c = i) ∧
    ((∀ j, j < c.length →
        (c.getD j zeroEntry).key16 ≠ sig ∧ (c.getD j zeroEntry).key16 ≠ 0) →
      victimIdx gen8 sig c < c.length ∧
      (∀ idx, idx < c.length →
        rscore gen8 (c.getD (victimIdx gen8 sig c) zeroEntry) ≤
          rscore gen8 (c.getD idx zeroEntry)) ∧
      (∀ idx, idx < victimIdx gen8 sig c →
        rscore gen8 (c.getD (victimIdx gen8 sig c) zeroEntry) <
          rscore gen8 (c.getD idx zeroEntry))) := by
  refine ⟨?_, ?_, ?_⟩
  · intro i hi hm hf
    unfold victimIdx
    rw [findMatchIdx_eq_some_of_first sig c i hi hm hf]
  · intro hnone i hi hm hf
    unfold victimIdx
    rw [findMatchIdx_eq_none_of sig c hnone, findEmptyIdx_eq,
      findMatchIdx_eq_some_of_first 0 c i hi hm hf]
  · intro hboth
    have hv : victimIdx gen8 sig c = lruVictim gen8 c := by
      unfold victimIdx
      rw [findMatchIdx_eq_none_of sig c (fun j hj => (hboth j hj).1), findEmptyIdx_eq,
        findMatchIdx_eq_none_of 0 c (fun j hj => (hboth j hj).2)]
    rw [hv]
    obtain ⟨h1, h2, h3⟩ := lruVictim_spec gen8 c hc
    exact ⟨h1, h2, fun idx hidx => h3 idx hidx⟩

/-- C3 witness: a full cluster (generation 8, depths 3/1/2) whose
least-valuable entry is the depth-1 slot in the middle. -/
theorem save_victim_selection_three_phases_witness :
    ([(⟨7, 0, 0, 0, 11, 3⟩ : TTEntry), ⟨8, 0, 0, 0, 11, 1⟩, ⟨9, 0, 0, 0, 11, 2⟩] :
        List TTEntry) ≠ [] ∧
    ((∀ j, j < ([(⟨7, 0, 0, 0, 11, 3⟩ : TTEntry), ⟨8, 0, 0, 0, 11, 1⟩,
          ⟨9, 0, 0, 0, 11, 2⟩] : List TTEntry).length →
        (([(⟨7, 0, 0, 0, 11, 3⟩ : TTEntry), ⟨8, 0, 0, 0, 11, 1⟩,
          ⟨9, 0, 0, 0, 11, 2⟩] : List TTEntry).getD j zeroEntry).key16 ≠ 5 ∧
        (([(⟨7, 0, 0, 0, 11, 3⟩ : TTEntry), ⟨8, 0, 0, 0, 11, 1⟩,
          ⟨9, 0, 0, 0, 11, 2⟩] : List TTEntry).getD j zeroEntry).key16 ≠ 0) →
      victimIdx 8 5 [⟨7, 0, 0, 0, 11, 3⟩, ⟨8, 0, 0, 0, 11, 1⟩, ⟨9, 0, 0, 0, 11, 2⟩] <
        ([(⟨7, 0, 0, 0, 11, 3⟩ : TTEntry), ⟨8, 0, 0, 0, 11, 1⟩,
          ⟨9, 0, 0, 0, 11, 2⟩] : List TTEntry).length ∧
      (∀ idx, idx < ([(⟨7, 0, 0, 0, 11, 3⟩ : TTEntry), ⟨8, 0, 0, 0, 11, 1⟩,
          ⟨9, 0, 0, 0, 11, 2⟩] : List TTEntry).length →
        rscore 8 (([(⟨7, 0, 0, 0, 11, 3⟩ : TTEntry), ⟨8, 0, 0, 0, 11, 1⟩,
            ⟨9, 0, 0, 0, 11, 2⟩] : List TTEntry).getD
          (victimIdx 8 5 [⟨7, 0, 0, 0, 11, 3⟩, ⟨8, 0, 0, 0, 11, 1⟩, ⟨9, 0, 0, 0, 11, 2⟩])
          zeroEntry) ≤
          rscore 8 (([(⟨7, 0, 0, 0, 11, 3⟩ : TTEntry), ⟨8, 0, 0, 0, 11, 1⟩,
            ⟨9, 0, 0, 0, 11, 2⟩] : List TTEntry).getD idx zeroEntry)) ∧
      (∀ idx, idx < victimIdx 8 5 [⟨7, 0, 0, 0, 11, 3⟩, ⟨8, 0, 0, 0, 11, 1⟩,
          ⟨9, 0, 0, 0, 11, 2⟩] →
        rscore 8 (([(⟨7, 0, 0, 0, 11, 3⟩ : TTEntry), ⟨8, 0, 0, 0, 11, 1⟩,
            ⟨9, 0, 0, 0, 11, 2⟩] : List TTEntry).getD
          (victimIdx 8 5 [⟨7, 0, 0, 0, 11, 3⟩, ⟨8, 0, 0, 0, 11, 1⟩, ⟨9, 0, 0, 0, 11, 2⟩])
          zeroEntry) <
          rscore 8 (([(⟨7, 0, 0, 0, 11, 3⟩ : TTEntry), ⟨8, 0, 0, 0, 11, 1⟩,
            ⟨9, 0, 0, 0, 11, 2⟩] : List TTEntry).getD idx zeroEntry))) :=
  ⟨by decide,
    (save_victim_selection_three_phases 8 5
      [⟨7, 0, 0, 0, 11, 3⟩, ⟨8, 0, 0, 0, 11, 1⟩, ⟨9, 0, 0, 0, 11, 2⟩] (by decide)).2.2⟩

/-- `probe` on a cluster whose first signature match sits at index `i`:
it refreshes that entry's generation byte in place and returns it. -/
theorem probe_hits_first_match (gen8 key : Nat) (c : List TTEntry) (i : Nat)
    (hi : i < c.length) (hm : (c.getD i zeroEntry).key16 = sigOf key)
    (hf : ∀ j, j < i → (c.getD j zeroEntry).key16 ≠ sigOf key) :
    probe gen8 key c =
      ⟨c.set i { c.getD i zeroEntry with
          genBound8 := refreshGB gen8 (c.getD i zeroEntry).genBound8 },
        true,
        some { c.getD i zeroEntry with
          genBound8 := refreshGB gen8 (c.getD i zeroEntry).genBound8 }⟩ := by
  unfold probe
  rw [probeAux_hit gen8 (sigOf key) c i hi hm hf]

/-- C4: in `save`'s write phase the victim's `move16` is preserved exactly
when the incoming move is 0 and the victim's `key16` already equals the new
signature, and is overwritten with the incoming move in every other case,
while `key16`, `value16`, `eval16`, the stored depth `d - DEPTH_OFFSET` and
`genBound8` (current generation, new pv flag, new bound) are overwritten
unconditionally; no other slot of the cluster is touched. -/
theorem save_write_phase_fields (gen8 k : Nat) (v : Int) (pv : Bool) (b : Nat)
    (d : Int) (m : Nat) (ev : Int) (c : List TTEntry)
    (hc : c ≠ []) (hm16 : m < 65536) :
    ((save gen8 k v pv b d m ev c).getD (victimIdx gen8 (sigOf k) c) zeroEntry).move16 =
      (if m = 0 ∧ (c.getD (victimIdx gen8 (sigOf k) c) zeroEntry).key16 = sigOf k
        then (c.getD (victimIdx gen8 (sigOf k) c) zeroEntry).move16 else m) ∧
    ((save gen8 k v pv b d m ev c).getD (victimIdx gen8 (sigOf k) c) zeroEntry).key16 =
      sigOf k ∧
    ((save gen8 k v pv b d m ev c).getD (victimIdx gen8 (sigOf k) c) zeroEntry).value16 =
      int16ofInt v ∧
    ((save gen8 k v pv b d m ev c).getD (victimIdx gen8 (sigOf k) c) zeroEntry).eval16 =
      int16ofInt ev ∧
    ((save gen8 k v pv b d m ev c).getD (victimIdx gen8 (sigOf k) c) zeroEntry).depth8 =
      uint8ofInt (d - DEPTH_OFFSET) ∧
    ((save gen8 k v pv b d m ev c).getD (victimIdx gen8 (sigOf k) c) zeroEntry).genBound8 =
      packGenBound gen8 pv b ∧
    (∀ j, j < c.length → j ≠ victimIdx gen8 (sigOf k) c →
      (save gen8 k v pv b d m ev c).getD j zeroEntry = c.getD j zeroEntry) := by
  have hlt := victimIdx_lt gen8 (sigOf k) c hc
  rw [save_eq_set gen8 k v pv b d m ev c hc]
  rw [getD_set_self _ _ _ hlt]
  refine ⟨?_, rfl, rfl, rfl, rfl, rfl, ?_⟩
  · show (if m ≠ 0 ∨ (c.getD (victimIdx gen8 (sigOf k) c) zeroEntry).key16 ≠ sigOf k
      then m % 65536 else (c.getD (victimIdx gen8 (sigOf k) c) zeroEntry).move16) = _
    by_cases hm0 : m = 0
    · by_cases hk : (c.getD (victimIdx gen8 (sigOf k) c) zeroEntry).key16 = sigOf k
      · rw [if_neg (not_or.mpr ⟨not_not_intro hm0, not_not_intro hk⟩), if_pos ⟨hm0, hk⟩]
      · rw [if_pos (Or.inr hk), if_neg (fun h => hk h.2), hm0]
    · rw [if_pos (Or.inl hm0), if_neg (fun h => hm0 h.1), Nat.mod_eq_of_lt hm16]
  · intro j hj hne
    exact getD_set_ne c _ j _ hne

/-- C4 witness: re-saving the same position with a null move preserves the
recorded move while refreshing the other fields. -/
theorem save_write_phase_fields_witness :
    ([(⟨57005, 0x1234, 42, -5, 15, 17⟩ : TTEntry), zeroEntry, zeroEntry] :
        List TTEntry) ≠ [] ∧ (0 : Nat) < 65536 ∧
    ((save 8 0xDEADBEEFCAFEBABE 50 false 2 12 0 (-4)
        [⟨57005, 0x1234, 42, -5, 15, 17⟩, zeroEntry, zeroEntry]).getD
      (victimIdx 8 (sigOf 0xDEADBEEFCAFEBABE)
        [⟨57005, 0x1234, 42, -5, 15, 17⟩, zeroEntry, zeroEntry]) zeroEntry).move16 =
      (if (0 : Nat) = 0 ∧
          (([(⟨57005, 0x1234, 42, -5, 15, 17⟩ : TTEntry), zeroEntry, zeroEntry] :
            List TTEntry).getD
            (victimIdx 8 (sigOf 0xDEADBEEFCAFEBABE)
              [⟨57005, 0x1234, 42, -5, 15, 17⟩, zeroEntry, zeroEntry])
            zeroEntry).key16 = sigOf 0xDEADBEEFCAFEBABE
        then (([(⟨57005, 0x1234, 42, -5, 15, 17⟩ : TTEntry), zeroEntry, zeroEntry] :
            List TTEntry).getD
            (victimIdx 8 (sigOf 0xDEADBEEFCAFEBABE)
              [⟨57005, 0x1234, 42, -5, 15, 17⟩, zeroEntry, zeroEntry])
            zeroEntry).move16
        else 0) :=
  ⟨by decide, by decide,
    (save_write_phase_fields 8 0xDEADBEEFCAFEBABE 50 false 2 12 0 (-4)
      [⟨57005, 0x1234, 42, -5, 15, 17⟩, zeroEntry, zeroEntry] (by decide) (by decide)).1⟩

/-- C5: a `probe` hit rewrites only the generation bits (high 5) of the hit
entry's `genBound8`, preserving the pv flag and the bound, and leaves `key16`,
`move16`, `value16`, `eval16` and `depth8` byte-identical; no other entry of
the cluster is modified. -/
theorem probe_hit_refreshes_generation_only (gen8 key : Nat) (c : List TTEntry)
    (i : Nat) (hg : gen8 < 256) (hg8 : gen8 % 8 = 0)
    (hi : i < c.length) (hm : (c.getD i zeroEntry).key16 = sigOf key)
    (hf : ∀ j, j < i → (c.getD j zeroEntry).key16 ≠ sigOf key) :
    (probe gen8 key c).found = true ∧
    (probe gen8 key c).hit =
      some ((probe gen8 key c).cluster.getD i zeroEntry) ∧
    ((probe gen8 key c).cluster.getD i zeroEntry).key16 =
      (c.getD i zeroEntry).key16 ∧
    ((probe gen8 key c).cluster.getD i zeroEntry).move16 =
      (c.getD i zeroEntry).move16 ∧
    ((probe gen8 key c).cluster.getD i zeroEntry).value16 =
      (c.getD i zeroEntry).value16 ∧
    ((probe gen8 key c).cluster.getD i zeroEntry).eval16 =
      (c.getD i zeroEntry).eval16 ∧
    ((probe gen8 key c).cluster.getD i zeroEntry).depth8 =
      (c.getD i zeroEntry).depth8 ∧
    ((probe gen8 key c).cluster.getD i zeroEntry).bound =
      (c.getD i zeroEntry).bound ∧
    ((probe gen8 key c).cluster.getD i zeroEntry).is_pv =
      (c.getD i zeroEntry).is_pv ∧
    ((probe gen8 key c).cluster.getD i zeroEntry).genBound8 &&& 248 = gen8 ∧
    (∀ j, j < c.length → j ≠ i →
      (probe gen8 key c).cluster.getD j zeroEntry = c.getD j zeroEntry) := by
  rw [probe_hits_first_match gen8 key c i hi hm hf]
  simp only [getD_set_self c i _ hi]
  obtain ⟨h7, h248, _⟩ :=
    refreshGB_bits gen8 hg hg8 (c.getD i zeroEntry).genBound8
  refine ⟨trivial, trivial, trivial, trivial, trivial, trivial, trivial, ?_, ?_, h248, ?_⟩
  · exact and3_of_and7 _ _ h7
  · show decide (refreshGB gen8 (c.getD i zeroEntry).genBound8 &&& 4 ≠ 0) = _
    rw [and4_of_and7 _ _ h7]
    rfl
  · intro j hj hne
    exact getD_set_ne c i j _ hne

/-- C5 witness: probing a stored entry at a later generation refreshes its
generation bits and nothing else. -/
theorem probe_hit_refreshes_generation_only_witness :
    (16 : Nat) < 256 ∧ (16 : Nat) % 8 = 0 ∧
    (0 : Nat) < ([(⟨57005, 0x1234, 42, -5, 15, 17⟩ : TTEntry), zeroEntry, zeroEntry] :
      List TTEntry).length ∧
    ((probe 16 0xDEADBEEFCAFEBABE
        [⟨57005, 0x1234, 42, -5, 15, 17⟩, zeroEntry, zeroEntry]).found = true ∧
      ((probe 16 0xDEADBEEFCAFEBABE
          [⟨57005, 0x1234, 42, -5, 15, 17⟩, zeroEntry, zeroEntry]).cluster.getD 0
        zeroEntry).bound =
        (([(⟨57005, 0x1234, 42, -5, 15, 17⟩ : TTEntry), zeroEntry, zeroEntry] :
          List TTEntry).getD 0 zeroEntry).bound ∧
      ((probe 16 0xDEADBEEFCAFEBABE
          [⟨57005, 0x1234, 42, -5, 15, 17⟩, zeroEntry, zeroEntry]).cluster.getD 0
        zeroEntry).genBound8 &&& 248 = 16) :=
  ⟨by decide, by decide, by decide,
    by
      obtain ⟨hfound, -, -, -, -, -, -, hbound, -, hgen, -⟩ :=
        probe_hit_refreshes_generation_only 16 0xDEADBEEFCAFEBABE
          [⟨57005, 0x1234, 42, -5, 15, 17⟩, zeroEntry, zeroEntry] 0
          (by decide) (by decide) (by decide) (by decide) (by omega)
      exact ⟨hfound, hbound, hgen⟩⟩

/-- C2: in single-threaded use, after `save(k, v, pv, b, d, mv, ev)` with
`b ≠ NONE` and `d` in the representable depth range (and the 16-bit interface
ranges of spec §6 for value, eval and move), an immediate `probe(k)` returns
`found = true` and an entry whose value, eval, bound, pv flag and depth equal
the saved arguments, and whose move equals `mv` — or the previously stored
move when `mv = 0` and an entry for `k` was already present. -/
theorem save_then_probe_roundtrip (gen8 k : Nat) (v : Int) (pv : Bool) (b : Nat)
    (d : Int) (m : Nat) (ev : Int) (c : List TTEntry)
    (hg : gen8 < 256) (hg8 : gen8 % 8 = 0) (hb0 : b ≠ BOUND_NONE) (hb : b < 4)
    (hd1 : 0 ≤ d - DEPTH_OFFSET) (hd2 : d - DEPTH_OFFSET ≤ 255)
    (hv1 : -32768 ≤ v) (hv2 : v < 32768) (hev1 : -32768 ≤ ev) (hev2 : ev < 32768)
    (hm16 : m < 65536) (hc : c ≠ []) :
    (probe gen8 k (save gen8 k v pv b d m ev c)).found = true ∧
    ∃ e, (probe gen8 k (save gen8 k v pv b d m ev c)).hit = some e ∧
      e.value = v ∧ e.eval = ev ∧ e.bound = b ∧ e.is_pv = pv ∧ e.depth = d ∧
      (m ≠ 0 → e.move = m) ∧
      (m = 0 → ∀ i0, findMatchIdx (sigOf k) c = some i0 →
        e.move = (c.getD i0 zeroEntry).move16) ∧
      (m = 0 → findMatchIdx (sigOf k) c = none → e.move = 0) := by
  have hlt := victimIdx_lt gen8 (sigOf k) c hc
  have hsave := save_eq_set gen8 k v pv b d m ev c hc
  set i := victimIdx gen8 (sigOf k) c with hi_def
  set old := c.getD i zeroEntry with hold_def
  set w := writeEntry gen8 (sigOf k) v pv b d m ev old with hw_def
  rw [hsave]
  have hw_at : (c.set i w).getD i zeroEntry = w := getD_set_self c i w hlt
  have hkey : ((c.set i w).getD i zeroEntry).key16 = sigOf k := by
    rw [hw_at, hw_def]
    rfl
  have hpre : ∀ j, j < i → (((c.set i w).getD j zeroEntry)).key16 ≠ sigOf k := by
    intro j hj
    rw [getD_set_ne c i j w (Nat.ne_of_lt hj)]
    exact victim_prefix_no_match gen8 (sigOf k) c j hj (lt_trans hj hlt)
  have hlen : i < (c.set i w).length := by
    rw [List.length_set]
    exact hlt
  rw [probe_hits_first_match gen8 k (c.set i w) i hlen hkey hpre, hw_at]
  refine ⟨rfl, ⟨{ w with genBound8 := refreshGB gen8 w.genBound8 }, rfl,
    ?_, ?_, ?_, ?_, ?_, ?_, ?_, ?_⟩⟩
  · show (int16ofInt v : Int) = v
    exact int16ofInt_eq v hv1 hv2
  · show (int16ofInt ev : Int) = ev
    exact int16ofInt_eq ev hev1 hev2
  · show refreshGB gen8 (packGenBound gen8 pv b) &&& 3 = b
    cases pv with
    | true => exact (packGenBound_true_bits gen8 hg hg8 b hb).1
    | false => exact (packGenBound_false_bits gen8 hg hg8 b hb).1
  · show decide (refreshGB gen8 (packGenBound gen8 pv b) &&& 4 ≠ 0) = pv
    cases pv with
    | true => rw [(packGenBound_true_bits gen8 hg hg8 b hb).2.1]; rfl
    | false => rw [(packGenBound_false_bits gen8 hg hg8 b hb).2.1]; rfl
  · show (uint8ofInt (d - DEPTH_OFFSET) : Int) + DEPTH_OFFSET = d
    rw [uint8ofInt_eq (d - DEPTH_OFFSET) hd1 (by omega)]
    omega
  · intro hm0
    show (if m ≠ 0 ∨ old.key16 ≠ sigOf k then m % 65536 else old.move16) = m
    rw [if_pos (Or.inl hm0)]
    exact Nat.mod_eq_of_lt hm16
  · intro hm0 i0 hfm
    have hii : i = i0 := by
      rw [hi_def]
      unfold victimIdx
      rw [hfm]
    show (if m ≠ 0 ∨ old.key16 ≠ sigOf k then m % 65536 else old.move16) =
      (c.getD i0 zeroEntry).move16
    have hkey0 : old.key16 = sigOf k := by
      rw [hold_def, hii]
      exact (findMatchIdx_some_spec (sigOf k) c i0 hfm).2.1
    rw [if_neg (not_or.mpr ⟨not_not_intro hm0, not_not_intro hkey0⟩), hold_def, hii]
  · intro hm0 hfm
    show (if m ≠ 0 ∨ old.key16 ≠ sigOf k then m % 65536 else old.move16) = 0
    have hkey0 : old.key16 ≠ sigOf k := by
      rw [hold_def]
      exact findMatchIdx_none_spec (sigOf k) c hfm i hlt
    rw [if_pos (Or.inr hkey0), hm0]

/-- C2 witness: the end-to-end scenario of spec §8: save
`(0xDEADBEEFCAFEBABE, +42, true, EXACT, 10, 0x1234, -5)` into a cleared
cluster, then probe the same key. -/
theorem save_then_probe_roundtrip_witness :
    ((8 : Nat) < 256 ∧ (8 : Nat) % 8 = 0 ∧ (3 : Nat) ≠ BOUND_NONE ∧ (3 : Nat) < 4 ∧
      (0 : Int) ≤ 10 - DEPTH_OFFSET ∧ (10 : Int) - DEPTH_OFFSET ≤ 255 ∧
      (0x1234 : Nat) < 65536 ∧ ([zeroEntry, zeroEntry, zeroEntry] : List TTEntry) ≠ []) ∧
    ((probe 8 0xDEADBEEFCAFEBABE
        (save 8 0xDEADBEEFCAFEBABE 42 true 3 10 0x1234 (-5)
          [zeroEntry, zeroEntry, zeroEntry])).found = true ∧
      ∃ e, (probe 8 0xDEADBEEFCAFEBABE
          (save 8 0xDEADBEEFCAFEBABE 42 true 3 10 0x1234 (-5)
            [zeroEntry, zeroEntry, zeroEntry])).hit = some e ∧
        e.value = 42 ∧ e.eval = -5 ∧ e.bound = 3 ∧ e.is_pv = true ∧ e.depth = 10 ∧
        ((0x1234 : Nat) ≠ 0 → e.move = 0x1234) ∧
        ((0x1234 : Nat) = 0 → ∀ i0,
          findMatchIdx (sigOf 0xDEADBEEFCAFEBABE) [zeroEntry, zeroEntry, zeroEntry] =
            some i0 →
          e.move = (([zeroEntry, zeroEntry, zeroEntry] : List TTEntry).getD i0
            zeroEntry).move16) ∧
        ((0x1234 : Nat) = 0 →
          findMatchIdx (sigOf 0xDEADBEEFCAFEBABE) [zeroEntry, zeroEntry, zeroEntry] =
            none →
          e.move = 0)) :=
  ⟨⟨by decide, by decide, by decide, by decide, by decide, by decide, by decide,
      by decide⟩,
    save_then_probe_roundtrip 8 0xDEADBEEFCAFEBABE 42 true 3 10 0x1234 (-5)
      [zeroEntry, zeroEntry, zeroEntry] (by decide) (by decide) (by decide) (by decide)
      (by decide) (by decide) (by decide) (by decide) (by decide) (by decide)
      (by decide) (by decide)⟩

/-! ### Lemmas for `hashfull` and `clear` -/

theorem foldl_add_indicator (p : TTEntry → Bool) (c : List TTEntry) (a : Nat) :
    c.foldl (fun cnt e => cnt + (if p e then 1 else 0)) a = a + (c.filter p).length := by
  induction c generalizing a with
  | nil => simp
  | cons e rest ih =>
    rw [List.foldl_cons, ih, List.filter_cons]
    by_cases hp : p e
    · rw [if_pos hp, if_pos hp, List.length_cons]
      omega
    · rw [if_neg hp, if_neg hp]
      omega

theorem range_foldl_add (g : Nat → Nat) (l : List Nat) (a : Nat) :
    l.foldl (fun cnt i => cnt + g i) a = a + (l.map g).sum := by
  induction l generalizing a with
  | nil => simp
  | cons x xs ih =>
    rw [List.foldl_cons, ih, List.map_cons, List.sum_cons]
    omega

theorem hashfullCnt_eq (gen8 : Nat) (tbl : Nat → List TTEntry) :
    hashfullCnt gen8 tbl =
      ((List.range 1000).map
        (fun i => ((tbl i).filter (occupied gen8)).length)).sum := by
  unfold hashfullCnt
  have hfun : (fun (cnt : Nat) (i : Nat) =>
      (tbl i).foldl (fun cnt e => cnt + (if occupied gen8 e then 1 else 0)) cnt) =
      fun cnt i => cnt + ((tbl i).filter (occupied gen8)).length := by
    funext cnt i
    exact foldl_add_indicator (occupied gen8) (tbl i) cnt
  rw [hfun, range_foldl_add]
  omega

/-- C6: `hashfull` equals the number of entries among the first 1000 clusters
whose `genBound8` carries the current generation in its high 5 bits and a
bound different from NONE in its low 2 bits, divided by `ClusterSize`; for
every table state the result lies in 0..1000. -/
theorem hashfull_counts_first_1000_clusters (gen8 : Nat) (tbl : Nat → List TTEntry)
    (hlen : ∀ i, (tbl i).length = ClusterSize) :
    hashfull gen8 tbl =
      ((List.range 1000).map
        (fun i => ((tbl i).filter (occupied gen8)).length)).sum / ClusterSize ∧
    hashfull gen8 tbl ≤ 1000 := by
  refine ⟨by rw [hashfull, hashfullCnt_eq], ?_⟩
  rw [hashfull, hashfullCnt_eq]
  have hsum : ((List.range 1000).map
      (fun i => ((tbl i).filter (occupied gen8)).length)).sum ≤ 3000 := by
    have hb : ∀ x ∈ (List.range 1000).map
        (fun i => ((tbl i).filter (occupied gen8)).length), x ≤ 3 := by
      intro x hx
      simp only [List.mem_map] at hx
      obtain ⟨i, -, rfl⟩ := hx
      calc ((tbl i).filter (occupied gen8)).length
          ≤ (tbl i).length := List.length_filter_le _ _
        _ = 3 := hlen i
    have h := List.sum_le_card_nsmul _ 3 hb
    simpa using h
  calc ((List.range 1000).map
        (fun i => ((tbl i).filter (occupied gen8)).length)).sum / ClusterSize
      ≤ 3000 / ClusterSize := Nat.div_le_div_right hsum
    _ = 1000 := by rfl

set_option maxRecDepth 8192 in
/-- C6 witness: a table whose clusters each hold exactly one occupied entry
reports 1000/3 = 333 permille. -/
theorem hashfull_counts_first_1000_clusters_witness :
    (∀ i, ((fun (_ : Nat) =>
        [(⟨1, 0, 0, 0, 11, 3⟩ : TTEntry), zeroEntry, zeroEntry]) i).length =
      ClusterSize) ∧
    (hashfull 8 (fun _ => [(⟨1, 0, 0, 0, 11, 3⟩ : TTEntry), zeroEntry, zeroEntry]) =
      ((List.range 1000).map
        (fun i => (((fun (_ : Nat) =>
          [(⟨1, 0, 0, 0, 11, 3⟩ : TTEntry), zeroEntry, zeroEntry]) i).filter
          (occupied 8)).length)).sum / ClusterSize ∧
      hashfull 8 (fun _ => [(⟨1, 0, 0, 0, 11, 3⟩ : TTEntry), zeroEntry, zeroEntry]) ≤
        1000) :=
  ⟨fun i => rfl,
    hashfull_counts_first_1000_clusters 8
      (fun _ => [⟨1, 0, 0, 0, 11, 3⟩, zeroEntry, zeroEntry]) (fun i => rfl)⟩

/-- Every cluster index below the count falls into some zeroing thread's
range: the `T` contiguous ranges of `clear` cover the table without gaps. -/
theorem clear_cover (N T : Nat) (hT : 1 ≤ T) (i : Nat) (hi : i < N) :
    ∃ idx, idx < T ∧ inClearRange N T idx i = true := by
  by_cases hcase : i < clearStride N T * (T - 1)
  · have hs : 0 < clearStride N T := by
      rcases Nat.eq_zero_or_pos (clearStride N T) with h0 | h
      · rw [h0] at hcase
        simp at hcase
      · exact h
    have hq : i / clearStride N T < T - 1 := by
      rw [Nat.div_lt_iff_lt_mul hs]
      calc i < clearStride N T * (T - 1) := hcase
        _ = (T - 1) * clearStride N T := Nat.mul_comm _ _
    refine ⟨i / clearStride N T, by omega, ?_⟩
    simp only [inClearRange, clearLen, clearStart]
    rw [if_pos (by omega : i / clearStride N T ≠ T - 1)]
    simp only [Bool.and_eq_true, decide_eq_true_eq]
    have hdm := Nat.div_add_mod i (clearStride N T)
    have hr : i % clearStride N T < clearStride N T := Nat.mod_lt i hs
    constructor
    · exact Nat.le.intro hdm
    · calc i = clearStride N T * (i / clearStride N T) + i % clearStride N T :=
          hdm.symm
        _ < clearStride N T * (i / clearStride N T) + clearStride N T :=
          Nat.add_lt_add_left hr _
  · refine ⟨T - 1, by omega, ?_⟩
    simp only [inClearRange, clearLen, clearStart]
    rw [if_neg (by omega : ¬ (T - 1 ≠ T - 1))]
    simp only [Bool.and_eq_true, decide_eq_true_eq]
    have hle : clearStride N T * (T - 1) ≤ i := Nat.le_of_not_lt hcase
    refine ⟨hle, ?_⟩
    rw [Nat.add_sub_cancel' (le_trans hle (le_of_lt hi))]
    exact hi

/-- C8: for every worker-thread count `T ≥ 1`, after `clear` on a table of
`N ≥ 1000` clusters, the `T` contiguous near-equal ranges (the last absorbing
the remainder) cover the whole table without gaps, every entry of every
cluster is zero, and `hashfull` returns 0. -/
theorem clear_zeroes_whole_table (N T gen8 : Nat) (tbl : Nat → List TTEntry)
    (hT : 1 ≤ T) (hN : 1000 ≤ N) :
    (∀ i, i < N → ∃ idx, idx < T ∧ inClearRange N T idx i = true) ∧
    (∀ i, i < N → clearTable N T tbl i = zeroCluster) ∧
    (∀ i, i < N → ∀ e ∈ clearTable N T tbl i, e = zeroEntry) ∧
    hashfull gen8 (clearTable N T tbl) = 0 := by
  have hcov : ∀ i, i < N → ∃ idx, idx < T ∧ inClearRange N T idx i = true :=
    fun i hi => clear_cover N T hT i hi
  have hzero : ∀ i, i < N → clearTable N T tbl i = zeroCluster := by
    intro i hi
    obtain ⟨idx, hidx, hin⟩ := hcov i hi
    unfold clearTable
    rw [if_pos (List.any_eq_true.mpr ⟨idx, List.mem_range.mpr hidx, hin⟩)]
  have hocc : occupied gen8 zeroEntry = false := by
    unfold occupied
    simp [zeroEntry, BOUND_NONE]
  refine ⟨hcov, hzero, ?_, ?_⟩
  · intro i hi e he
    rw [hzero i hi] at he
    exact List.eq_of_mem_replicate he
  · rw [hashfull, hashfullCnt_eq]
    have hall : ∀ x ∈ (List.range 1000).map
        (fun i => ((clearTable N T tbl i).filter (occupied gen8)).length),
        x = 0 := by
      intro x hx
      simp only [List.mem_map, List.mem_range] at hx
      obtain ⟨i, hi, rfl⟩ := hx
      rw [hzero i (by omega),
        show zeroCluster = [zeroEntry, zeroEntry, zeroEntry] from rfl]
      simp [List.filter_cons, hocc]
    rw [List.sum_eq_zero hall]
    rfl

/-- C8 witness: a junk table of 1000 clusters cleared by 3 threads. -/
theorem clear_zeroes_whole_table_witness :
    ((1 : Nat) ≤ 3 ∧ (1000 : Nat) ≤ 1000) ∧
    ((∀ i, i < 1000 → ∃ idx, idx < 3 ∧ inClearRange 1000 3 idx i = true) ∧
      (∀ i, i < 1000 →
        clearTable 1000 3 (fun _ => [(⟨1, 2, 3, 4, 5, 6⟩ : TTEntry)]) i = zeroCluster) ∧
      (∀ i, i < 1000 → ∀ e ∈ clearTable 1000 3
        (fun _ => [(⟨1, 2, 3, 4, 5, 6⟩ : TTEntry)]) i, e = zeroEntry) ∧
      hashfull 8 (clearTable 1000 3 (fun _ => [(⟨1, 2, 3, 4, 5, 6⟩ : TTEntry)])) = 0) :=
  ⟨⟨by decide, by decide⟩,
    clear_zeroes_whole_table 1000 3 8 (fun _ => [⟨1, 2, 3, 4, 5, 6⟩])
      (by decide) (by decide)⟩

/-- C7: the only operation that can fail is `resize`, and only through
allocation failure: in that case the process writes the human-readable
diagnostic `"Failed to allocate <mb>MB for transposition table."` to the
standard error stream and terminates with the nonzero exit code
`EXIT_FAILURE`; there is no retry or degraded mode (the outcome is uniquely
determined by the allocation result), and `probe` and `save` are total:
`probe` always reports hit or miss coherently and `save` always writes into
the existing cluster storage. -/
theorem resize_only_failure_mode (mbSize : Nat) :
    resize mbSize true = ResizeOutcome.ok (mbSize * 1024 * 1024 / sizeofCluster) ∧
    resize mbSize false =
      ResizeOutcome.fatal
        ("Failed to allocate " ++ toString mbSize ++ "MB for transposition table.") 1 ∧
    (1 : Nat) ≠ 0 ∧
    (∀ alloc, resize mbSize alloc ≠
        ResizeOutcome.ok (mbSize * 1024 * 1024 / sizeofCluster) → alloc = false) ∧
    (∀ gen8 key c, ((probe gen8 key c).hit).isSome = (probe gen8 key c).found) ∧
    (∀ gen8 k v pv b d m ev c,
      (save gen8 k v pv b (d : Int) m (ev : Int) c).length = c.length) := by
  refine ⟨rfl, rfl, by decide, ?_, ?_, ?_⟩
  · intro alloc h
    cases alloc with
    | true => exact absurd rfl h
    | false => rfl
  · intro gen8 key c
    unfold probe
    cases probeAux gen8 (sigOf key) c with
    | none => rfl
    | some p =>
      cases p with
      | mk c2 hit => rfl
  · intro gen8 k v pv b d m ev c
    cases c with
    | nil => rfl
    | cons e rest =>
      rw [save_eq_set gen8 k v pv b d m ev (e :: rest) (by simp)]
      exact List.length_set _ _ _

/-- C10 counterexample: with key 0 (high 16 bits zero) and a cluster whose
first entry is a previously saved entry for signature 0 (nonzero move) while
the all-zero empty entry sits behind it, `probe` hits and returns the first
matching entry, not the empty one: the returned entry carries move 5 ≠ 0. -/
theorem probe_zero_key_counterexample :
    sigOf 0 = 0 ∧
    zeroEntry ∈ [(⟨0, 5, 7, 0, 10, 3⟩ : TTEntry), zeroEntry, zeroEntry] ∧
    (probe 8 0 [(⟨0, 5, 7, 0, 10, 3⟩ : TTEntry), zeroEntry, zeroEntry]).found = true ∧
    (probe 8 0 [(⟨0, 5, 7, 0, 10, 3⟩ : TTEntry), zeroEntry, zeroEntry]).hit =
      some ⟨0, 5, 7, 0, 10, 3⟩ ∧
    (⟨0, 5, 7, 0, 10, 3⟩ : TTEntry).move ≠ 0 := by
  decide

/-- C10 amended: for every key whose high 16 bits are zero, `probe` on a
cluster containing an entry with `key16 = 0` returns `found = true` with the
first entry in scan order whose `key16` is 0; when that first entry is the
all-zero empty entry, the returned entry carries bound NONE, move 0 and
zeroed value, eval and depth fields (only its generation bits are refreshed).
A probe hit therefore does not imply any prior save for that key. -/
theorem probe_zero_sig_hits_first_empty (gen8 key : Nat) (c : List TTEntry)
    (i : Nat) (hg : gen8 < 256) (hg8 : gen8 % 8 = 0) (hsig : sigOf key = 0)
    (hi : i < c.length) (hzero : c.getD i zeroEntry = zeroEntry)
    (hf : ∀ j, j < i → (c.getD j zeroEntry).key16 ≠ 0) :
    (probe gen8 key c).found = true ∧
    ∃ e, (probe gen8 key c).hit = some e ∧
      e.bound = BOUND_NONE ∧ e.move = 0 ∧ e.value = 0 ∧ e.eval = 0 ∧
      e.depth8 = 0 := by
  have hm : (c.getD i zeroEntry).key16 = sigOf key := by
    rw [hzero, hsig]
    rfl
  have hf' : ∀ j, j < i → (c.getD j zeroEntry).key16 ≠ sigOf key := by
    intro j hj
    rw [hsig]
    exact hf j hj
  rw [probe_hits_first_match gen8 key c i hi hm hf', hzero]
  obtain ⟨h7, -, -⟩ := refreshGB_bits gen8 hg hg8 zeroEntry.genBound8
  refine ⟨rfl, ⟨_, rfl, ?_, rfl, rfl, rfl, rfl⟩⟩
  show refreshGB gen8 zeroEntry.genBound8 &&& 3 = BOUND_NONE
  have h3 := and3_of_and7 (refreshGB gen8 zeroEntry.genBound8) zeroEntry.genBound8 h7
  rw [h3]
  rfl

/-- C10 witness: key 0 probed on a cluster whose first slot has a nonzero
signature and whose second slot is the empty entry. -/
theorem probe_zero_sig_hits_first_empty_witness :
    ((8 : Nat) < 256 ∧ (8 : Nat) % 8 = 0 ∧ sigOf 0 = 0 ∧
      (1 : Nat) < ([(⟨3, 1, 1, 1, 11, 2⟩ : TTEntry), zeroEntry, zeroEntry] :
        List TTEntry).length ∧
      ([(⟨3, 1, 1, 1, 11, 2⟩ : TTEntry), zeroEntry, zeroEntry] :
        List TTEntry).getD 1 zeroEntry = zeroEntry) ∧
    ((probe 8 0 [(⟨3, 1, 1, 1, 11, 2⟩ : TTEntry), zeroEntry, zeroEntry]).found = true ∧
      ∃ e, (probe 8 0 [(⟨3, 1, 1, 1, 11, 2⟩ : TTEntry), zeroEntry,
          zeroEntry]).hit = some e ∧
        e.bound = BOUND_NONE ∧ e.move = 0 ∧ e.value = 0 ∧ e.eval = 0 ∧
        e.depth8 = 0) :=
  ⟨⟨by decide, by decide, by decide, by decide, by decide⟩,
    probe_zero_sig_hits_first_empty 8 0
      [⟨3, 1, 1, 1, 11, 2⟩, zeroEntry, zeroEntry] 1
      (by decide) (by decide) (by decide) (by decide) (by decide)
      (by decide)⟩

end TT
